import Mathlib

/-!
# Generic Kubernetes cluster handle (`pkg/clusters/types/kubernetes/cluster.go`)

A shallow embedding of the addon bookkeeping of `Cluster` and of `Cluster.Version`.

* The addon map `clusters.Addons` (a Go `map[AddonName]Addon`) is an association list with
  unique keys (`AList`).
* The handle's `sync.RWMutex` is part of the state.  A call that would block forever in a
  sequential run (`Lock` on a held mutex) or abort (`Unlock` of a free mutex) yields `none`:
  the operation does not return.
* Every mutex call and every addon callback an operation performs is appended to a trace, so
  that "does not invoke the callback" and the lock discipline are statements about the code.
* `DeployAddon` calls `addon.Deploy(ctx, c)` on the live handle after it has released the
  lock, so a deploy callback may itself call the handle's operations.  A deploy callback is
  therefore a program over those operations (`Callback`), run on the live state.  Nested
  `DeployAddon` calls are bounded by a fuel argument; running out of fuel yields `none`.
* Addon callbacks also act on the world outside the handle (the real cluster behind the
  client); that world is a value of an arbitrary type `W`.
-/

namespace KTF

/-- A Go `error` value, identified by its message. -/
structure GoError where
  msg : String
deriving DecidableEq, Repr

/-- The type `clusters.AddonName` is a string type. -/
abbrev AddonName := String

/-- State of a `sync.RWMutex`: whether a writer holds it and how many readers hold it. -/
structure RWMutex where
  writer : Bool
  readers : Nat
deriving DecidableEq, Repr

namespace RWMutex

/-- The zero value `&sync.RWMutex{}`: nobody holds the mutex. -/
def unlocked : RWMutex := { writer := false, readers := 0 }

/-- Method `Lock`: exclusive acquisition; blocks (here: `none`) while anybody holds the
mutex. -/
def Lock (m : RWMutex) : Option RWMutex :=
  if m.writer = false ∧ m.readers = 0 then some { writer := true, readers := 0 } else none

/-- Method `Unlock`: releases the exclusive hold; a run-time error (here: `none`) if there is
none. -/
def Unlock (m : RWMutex) : Option RWMutex :=
  if m.writer = true then some { writer := false, readers := m.readers } else none

/-- Method `RLock`: shared acquisition; blocks (here: `none`) while a writer holds the mutex. -/
def RLock (m : RWMutex) : Option RWMutex :=
  if m.writer = false then some { writer := false, readers := m.readers + 1 } else none

/-- Method `RUnlock`: releases one shared hold; a run-time error (here: `none`) if there is
none. -/
def RUnlock (m : RWMutex) : Option RWMutex :=
  if 0 < m.readers then some { writer := m.writer, readers := m.readers - 1 } else none

end RWMutex

/-- The fields of `Cluster` the addon operations read or write: `name`, `addons` and the
mutex `l`.  (`client`, `cfg` and `deployArgs` are never touched by them.) -/
structure Cluster (A : Type) where
  name : String
  addons : AList (fun _ : AddonName => A)
  l : RWMutex
deriving DecidableEq

/-- What an operation does besides changing the handle: the mutex calls it makes and the addon
callbacks it invokes, each callback with the handle as it is when the callback starts. -/
inductive Event (A : Type) where
  | Lock : Event A
  | Unlock : Event A
  | RLock : Event A
  | RUnlock : Event A
  | Deploy (addon : A) (seen : Cluster A) : Event A
  | Delete (addon : A) (seen : Cluster A) : Event A
deriving DecidableEq

/-- What a deploy callback does with the handle `c` it is given: it returns its result, reads
or writes the world outside the handle, or calls one of the handle's methods and goes on with
what that call returned. -/
inductive Callback (A W : Type) where
  | ret (r : Option GoError) : Callback A W
  | getWorld (k : W → Callback A W) : Callback A W
  | setWorld (w : W) (k : Callback A W) : Callback A W
  | name (k : String → Callback A W) : Callback A W
  | getAddon (n : AddonName) (k : Option A × Option GoError → Callback A W) : Callback A W
  | listAddons (k : List A → Callback A W) : Callback A W
  | deployAddon (addon : A) (k : Option GoError → Callback A W) : Callback A W
  | deleteAddon (addon : A) (k : Option GoError → Callback A W) : Callback A W
  | cleanup (k : Option GoError → Callback A W) : Callback A W

/-- Modelled from the spec: the `clusters.Addon` interface, declared in `pkg/clusters` and not
part of this file.  "Each addon exposes a name, a deploy operation, and a delete operation,
each taking the surrounding cluster handle as a parameter."  `A` is the type of addon values.
The deploy callback is a program over the live handle.  The delete callback is invoked while
`DeleteAddon` holds the exclusive lock, where every method of the handle that takes the lock
blocks; it receives the handle as it is at the call, acts on the world outside the handle and
returns an error or `nil`. -/
structure AddonInterface (A W : Type) where
  Name : A → AddonName
  Deploy : A → Callback A W
  Delete : A → Cluster A → W → W × Option GoError

/-- A handle in its environment: the handle, the world its addon callbacks act on, and the
trace of mutex calls and callback invocations so far. -/
structure Sys (A W : Type) where
  c : Cluster A
  world : W
  trace : List (Event A)
deriving DecidableEq

/-- The constant `GenericClusterType`. -/
def GenericClusterType : String := "generic"

/-- The handle `New` builds: named after the cluster type, no addons, a fresh mutex. -/
def New (A : Type) : Cluster A :=
  { name := GenericClusterType, addons := ∅, l := RWMutex.unlocked }

namespace Cluster

/-- Method `Cluster.Name`. -/
def Name {A : Type} (c : Cluster A) : String := c.name

end Cluster

namespace Sys

variable {A W : Type}

/-- The call `c.l.Lock()`, recorded in the trace. -/
def Lock (s : Sys A W) : Option (Sys A W) :=
  match s.c.l.Lock with
  | none => none
  | some m => some { s with c := { s.c with l := m }, trace := s.trace ++ [Event.Lock] }

/-- The call `c.l.Unlock()`, recorded in the trace. -/
def Unlock (s : Sys A W) : Option (Sys A W) :=
  match s.c.l.Unlock with
  | none => none
  | some m => some { s with c := { s.c with l := m }, trace := s.trace ++ [Event.Unlock] }

/-- The call `c.l.RLock()`, recorded in the trace. -/
def RLock (s : Sys A W) : Option (Sys A W) :=
  match s.c.l.RLock with
  | none => none
  | some m => some { s with c := { s.c with l := m }, trace := s.trace ++ [Event.RLock] }

/-- The call `c.l.RUnlock()`, recorded in the trace. -/
def RUnlock (s : Sys A W) : Option (Sys A W) :=
  match s.c.l.RUnlock with
  | none => none
  | some m => some { s with c := { s.c with l := m }, trace := s.trace ++ [Event.RUnlock] }

end Sys

variable {A W : Type}

/-- Method `Cluster.Cleanup`: takes and releases the exclusive lock, returns `nil`. -/
def Cleanup (s : Sys A W) : Option (Option GoError × Sys A W) :=
  match s.Lock with
  | none => none
  | some s1 =>
    match s1.Unlock with
    | none => none
    | some s2 => some (none, s2)

/-- Method `Cluster.GetAddon`: under the shared lock, scans the map for the key `name`;
returns the addon stored there, or `nil` and the error `addon <name> not found`. -/
def GetAddon (s : Sys A W) (name : AddonName) :
    Option ((Option A × Option GoError) × Sys A W) :=
  match s.RLock with
  | none => none
  | some s1 =>
    match s1.c.addons.entries.find? (fun e => e.1 == name) with
    | some e =>
      match s1.RUnlock with
      | none => none
      | some s2 => some ((some e.2, none), s2)
    | none =>
      match s1.RUnlock with
      | none => none
      | some s2 => some ((none, some ⟨"addon " ++ name ++ " not found"⟩), s2)

/-- Method `Cluster.ListAddons`: under the shared lock, appends every value of the map to a
list. -/
def ListAddons (s : Sys A W) : Option (List A × Sys A W) :=
  match s.RLock with
  | none => none
  | some s1 =>
    let addonList := s1.c.addons.entries.foldl (fun acc e => acc ++ [e.2]) []
    match s1.RUnlock with
    | none => none
    | some s2 => some (addonList, s2)

/-- Method `Cluster.DeleteAddon`: holds the exclusive lock until it returns
(`defer c.l.Unlock()`); returns `nil` if the addon's name is not a key of the map; otherwise
invokes the addon's delete callback, returns its error if there is one, and else deletes the
key. -/
def DeleteAddon (I : AddonInterface A W) (s : Sys A W) (addon : A) :
    Option (Option GoError × Sys A W) :=
  match s.Lock with
  | none => none
  | some s1 =>
    match s1.c.addons.lookup (I.Name addon) with
    | none =>
      match s1.Unlock with
      | none => none
      | some s2 => some (none, s2)
    | some _ =>
      let r := I.Delete addon s1.c s1.world
      let s2 : Sys A W :=
        { s1 with world := r.1, trace := s1.trace ++ [Event.Delete addon s1.c] }
      match r.2 with
      | some err =>
        match s2.Unlock with
        | none => none
        | some s3 => some (some err, s3)
      | none =>
        let s3 : Sys A W :=
          { s2 with c := { s2.c with addons := s2.c.addons.erase (I.Name addon) } }
        match s3.Unlock with
        | none => none
        | some s4 => some (none, s4)

/-- Runs a deploy callback on the live handle: every call of a method of the handle is that
method, applied to the state the handle is in at that moment.  `deploy` is `DeployAddon`. -/
def Callback.run (I : AddonInterface A W)
    (deploy : Sys A W → A → Option (Option GoError × Sys A W)) :
    Callback A W → Sys A W → Option (Option GoError × Sys A W)
  | Callback.ret r, s => some (r, s)
  | Callback.getWorld k, s => Callback.run I deploy (k s.world) s
  | Callback.setWorld w k, s => Callback.run I deploy k { s with world := w }
  | Callback.name k, s => Callback.run I deploy (k s.c.Name) s
  | Callback.getAddon n k, s =>
    match GetAddon s n with
    | none => none
    | some (r, s') => Callback.run I deploy (k r) s'
  | Callback.listAddons k, s =>
    match ListAddons s with
    | none => none
    | some (r, s') => Callback.run I deploy (k r) s'
  | Callback.deployAddon addon k, s =>
    match deploy s addon with
    | none => none
    | some (r, s') => Callback.run I deploy (k r) s'
  | Callback.deleteAddon addon k, s =>
    match DeleteAddon I s addon with
    | none => none
    | some (r, s') => Callback.run I deploy (k r) s'
  | Callback.cleanup k, s =>
    match Cleanup s with
    | none => none
    | some (r, s') => Callback.run I deploy (k r) s'

/-- Method `Cluster.DeployAddon`: under the exclusive lock, rejects a name that is already a
key of the map; otherwise stores the addon under its name, releases the lock and returns what
the addon's deploy callback returns.  The callback runs on the live handle; the calls of
`DeployAddon` it makes have one unit of fuel less. -/
def DeployAddon (I : AddonInterface A W) (fuel : Nat) (s : Sys A W) (addon : A) :
    Option (Option GoError × Sys A W) :=
  match s.Lock with
  | none => none
  | some s1 =>
    match s1.c.addons.lookup (I.Name addon) with
    | some _ =>
      match s1.Unlock with
      | none => none
      | some s2 =>
        some (some ⟨"addon component " ++ I.Name addon ++ " is already loaded into cluster "
          ++ s2.c.Name⟩, s2)
    | none =>
      let s2 : Sys A W :=
        { s1 with c := { s1.c with addons := s1.c.addons.insert (I.Name addon) addon } }
      match s2.Unlock with
      | none => none
      | some s3 =>
        (I.Deploy addon).run I
          (match fuel with
            | 0 => fun _ _ => none
            | n + 1 => DeployAddon I n)
          { s3 with trace := s3.trace ++ [Event.Deploy addon s3.c] }

/-- The `DeployAddon` a deploy callback can call when the enclosing call has `fuel`. -/
def nestedDeploy (I : AddonInterface A W) :
    Nat → Sys A W → A → Option (Option GoError × Sys A W)
  | 0 => fun _ _ => none
  | n + 1 => DeployAddon I n

/-- Go `strings.HasPrefix`. -/
def HasPrefix (s pre : String) : Bool := pre.data.isPrefixOf s.data

/-- Go `strings.TrimPrefix`: `s` without the leading `pre`, or `s` itself if it does not start
with `pre`.  Strings are read character by character; for the one-byte prefix `v` this agrees
with the byte-wise reading of Go. -/
def TrimPrefix (s pre : String) : String :=
  if HasPrefix s pre then ⟨s.data.drop pre.data.length⟩ else s

/-- Method `Cluster.Version`.  `serverVersion` is the outcome of `c.Client().ServerVersion()`
(on success, the version info's `String()`), `parse` is `semver.Parse` of the semver library. -/
def Version {V : Type} (parse : String → Except GoError V)
    (serverVersion : Except GoError String) : Except GoError V :=
  match serverVersion with
  | Except.error err => Except.error err
  | Except.ok versionInfo => parse (TrimPrefix versionInfo "v")

/-- A handle at rest: no operation in progress holds its mutex. -/
def AtRest (s : Sys A W) : Prop := s.c.l = RWMutex.unlocked

instance (s : Sys A W) : Decidable (AtRest s) :=
  inferInstanceAs (Decidable (s.c.l = RWMutex.unlocked))

/-- The handle as a callback sees it while the caller holds the exclusive lock. -/
def Cluster.held (c : Cluster A) : Cluster A := { c with l := { writer := true, readers := 0 } }

/-- The deploy callback of `addon`, started on a handle at rest, returns and leaves the addon
map as it found it. -/
def DeployKeepsMap (I : AddonInterface A W) (fuel : Nat) (addon : A) : Prop :=
  ∀ s : Sys A W, AtRest s →
    ∃ r s', (I.Deploy addon).run I (nestedDeploy I fuel) s = some (r, s') ∧
      s'.c.addons = s.c.addons

/-- The states a handle can be in between calls: `New` builds it, and each of `DeployAddon`,
`DeleteAddon`, `GetAddon`, `ListAddons` and `Cleanup` that returns leads to the next one; the
world outside the handle may change between calls. -/
inductive Reachable (I : AddonInterface A W) : Sys A W → Prop where
  | new (w : W) : Reachable I { c := New A, world := w, trace := [] }
  | deploy {s s' : Sys A W} {r : Option GoError} (fuel : Nat) (addon : A) :
      Reachable I s → DeployAddon I fuel s addon = some (r, s') → Reachable I s'
  | delete {s s' : Sys A W} {r : Option GoError} (addon : A) :
      Reachable I s → DeleteAddon I s addon = some (r, s') → Reachable I s'
  | get {s s' : Sys A W} {r : Option A × Option GoError} (name : AddonName) :
      Reachable I s → GetAddon s name = some (r, s') → Reachable I s'
  | list {s s' : Sys A W} {r : List A} :
      Reachable I s → ListAddons s = some (r, s') → Reachable I s'
  | cleanup {s s' : Sys A W} {r : Option GoError} :
      Reachable I s → Cleanup s = some (r, s') → Reachable I s'
  | env {s : Sys A W} (w : W) : Reachable I s → Reachable I { s with world := w }

/-- Every addon in the map is stored under its own name. -/
def KeyedByName (I : AddonInterface A W) (s : Sys A W) : Prop :=
  ∀ k a, s.c.addons.lookup k = some a → I.Name a = k

/-- A property of handle states that holds only at rest and that the steps of the handle's
operations keep. -/
structure Stable (I : AddonInterface A W) (P : Sys A W → Prop) : Prop where
  atRest : ∀ s, P s → AtRest s
  world : ∀ s w, P s → P { s with world := w }
  trace : ∀ s t, P s → P { s with trace := t }
  insert : ∀ s addon, P s →
    P { s with c := { s.c with addons := s.c.addons.insert (I.Name addon) addon } }
  erase : ∀ s n, P s → P { s with c := { s.c with addons := s.c.addons.erase n } }

/-- What the deploy callback of a stub addon does with the handle. -/
inductive StubScript where
  | plain : StubScript
  | deploysMetallb : StubScript
  | deletesItself : StubScript
deriving DecidableEq, Repr

/-- A concrete addon type: a name, the results its two callbacks return, and what its deploy
callback does with the handle before it returns. -/
structure StubAddon where
  name : AddonName
  deployResult : Option GoError
  deleteResult : Option GoError
  script : StubScript
deriving DecidableEq, Repr

/-- A stub addon named `metallb` whose callbacks succeed. -/
def metallb : StubAddon :=
  { name := "metallb", deployResult := none, deleteResult := none, script := StubScript.plain }

/-- A stub addon named `kong` whose delete callback fails. -/
def kong : StubAddon :=
  { name := "kong", deployResult := none, deleteResult := some ⟨"delete failed"⟩,
    script := StubScript.plain }

/-- A stub addon named `bundle` whose deploy callback calls `c.DeployAddon(ctx, metallb)`. -/
def bundle : StubAddon :=
  { name := "bundle", deployResult := none, deleteResult := none,
    script := StubScript.deploysMetallb }

/-- A stub addon named `oneshot` whose deploy callback calls `c.DeleteAddon(ctx, oneshot)`. -/
def oneshot : StubAddon :=
  { name := "oneshot", deployResult := none, deleteResult := none,
    script := StubScript.deletesItself }

/-- A stub addon named `flaky` whose deploy callback returns an error. -/
def flaky : StubAddon :=
  { name := "flaky", deployResult := some ⟨"deploy failed"⟩, deleteResult := none,
    script := StubScript.plain }

/-- The addon interface of `StubAddon`.  The world counts the callback invocations of plain
addons and of delete callbacks. -/
def stubInterface : AddonInterface StubAddon Nat :=
  { Name := fun a => a.name
    Deploy := fun a =>
      match a.script with
      | StubScript.plain =>
        Callback.getWorld fun w => Callback.setWorld (w + 1) (Callback.ret a.deployResult)
      | StubScript.deploysMetallb =>
        Callback.deployAddon metallb fun _ => Callback.ret a.deployResult
      | StubScript.deletesItself =>
        Callback.deleteAddon a fun _ => Callback.ret a.deployResult
    Delete := fun a _ w => (w + 1, a.deleteResult) }

/-- A freshly constructed handle in a world where no callback has run. -/
def fresh : Sys StubAddon Nat := { c := New StubAddon, world := 0, trace := [] }

/-- The handle after `kong` was deployed to a fresh one: at rest, holding `kong`. -/
def withKong : Sys StubAddon Nat :=
  { c := { name := "generic", addons := AList.singleton "kong" kong, l := RWMutex.unlocked }
    world := 1
    trace := [Event.Lock, Event.Unlock,
      Event.Deploy kong
        { name := "generic", addons := AList.singleton "kong" kong, l := RWMutex.unlocked }] }

/-- The handle after `bundle` was deployed to a fresh one; its deploy callback has deployed
`metallb` in turn. -/
def withBundle : Sys StubAddon Nat :=
  ((DeployAddon stubInterface 1 fresh bundle).map (fun r => r.2)).getD fresh

/-- A semantic version: major, minor and patch number. -/
structure SemVer where
  major : Nat
  minor : Nat
  patch : Nat
deriving DecidableEq, Repr

/-- A stand-in for `semver.Parse` that knows the one version string `1.28.0`. -/
def parseOnly1280 (s : String) : Except GoError SemVer :=
  if s = "1.28.0" then Except.ok { major := 1, minor := 28, patch := 0 }
  else Except.error ⟨"Invalid semantic version"⟩

theorem find_key_none (name : AddonName) (l : List (Sigma fun _ : AddonName => A)) :
    l.find? (fun e => e.1 == name) = none ↔ l.dlookup name = none := by
  induction l with
  | nil => simp
  | cons e l ih =>
    obtain ⟨k, v⟩ := e
    by_cases h : k = name
    · subst h; simp [List.dlookup_cons_eq]
    · have hd : List.dlookup name (⟨k, v⟩ :: l) = List.dlookup name l :=
        List.dlookup_cons_ne l ⟨k, v⟩ (Ne.symm h)
      simp [List.find?_cons, h, hd, ih]

theorem find_key_some (name : AddonName) (l : List (Sigma fun _ : AddonName => A))
    (e : Sigma fun _ : AddonName => A) (h : l.find? (fun e => e.1 == name) = some e) :
    e.1 = name ∧ l.dlookup name = some e.2 := by
  induction l with
  | nil => simp at h
  | cons e' l ih =>
    obtain ⟨k, v⟩ := e'
    by_cases hk : k = name
    · subst hk
      simp [List.find?_cons] at h
      subst h
      simp [List.dlookup_cons_eq]
    · simp [List.find?_cons, hk] at h
      have := ih h
      have hd : List.dlookup name (⟨k, v⟩ :: l) = List.dlookup name l :=
        List.dlookup_cons_ne l ⟨k, v⟩ (Ne.symm hk)
      simp [hd, this]

theorem foldl_append_values (l : List (Sigma fun _ : AddonName => A)) (acc : List A) :
    l.foldl (fun acc e => acc ++ [e.2]) acc = acc ++ l.map (fun e => e.2) := by
  induction l generalizing acc with
  | nil => simp
  | cons e l ih => simp [ih]

theorem Cleanup_atRest (s : Sys A W) (h : AtRest s) :
    Cleanup s = some (none, { s with trace := s.trace ++ [Event.Lock, Event.Unlock] }) := by
  obtain ⟨⟨n, m, l⟩, w, t⟩ := s
  simp only [AtRest] at h
  subst h
  simp [Cleanup, Sys.Lock, Sys.Unlock, RWMutex.Lock, RWMutex.Unlock, RWMutex.unlocked]

theorem GetAddon_shared (s : Sys A W) (h : s.c.l.writer = false) (name : AddonName) :
    GetAddon s name =
      some ((match s.c.addons.lookup name with
              | some a => (some a, none)
              | none => (none, some ⟨"addon " ++ name ++ " not found"⟩)),
            { s with trace := s.trace ++ [Event.RLock, Event.RUnlock] }) := by
  obtain ⟨⟨n, m, ⟨w, r⟩⟩, wd, t⟩ := s
  simp only at h
  subst h
  simp only [GetAddon, Sys.RLock, RWMutex.RLock]
  simp only [if_true]
  cases hf : m.entries.find? (fun e => e.1 == name) with
  | none =>
    have hl : m.lookup name = none := (find_key_none name m.entries).1 hf
    simp [hl, Sys.RUnlock, RWMutex.RUnlock]
  | some e =>
    have hl : m.lookup name = some e.2 := (find_key_some name m.entries e hf).2
    simp [hl, Sys.RUnlock, RWMutex.RUnlock]

theorem GetAddon_atRest (s : Sys A W) (h : AtRest s) (name : AddonName) :
    GetAddon s name =
      some ((match s.c.addons.lookup name with
              | some a => (some a, none)
              | none => (none, some ⟨"addon " ++ name ++ " not found"⟩)),
            { s with trace := s.trace ++ [Event.RLock, Event.RUnlock] }) :=
  GetAddon_shared s (by rw [h]; rfl) name

theorem ListAddons_shared (s : Sys A W) (h : s.c.l.writer = false) :
    ListAddons s =
      some (s.c.addons.entries.map (fun e => e.2),
            { s with trace := s.trace ++ [Event.RLock, Event.RUnlock] }) := by
  obtain ⟨⟨n, m, ⟨w, r⟩⟩, wd, t⟩ := s
  simp only at h
  subst h
  simp [ListAddons, Sys.RLock, RWMutex.RLock, Sys.RUnlock, RWMutex.RUnlock,
    foldl_append_values]

theorem ListAddons_atRest (s : Sys A W) (h : AtRest s) :
    ListAddons s =
      some (s.c.addons.entries.map (fun e => e.2),
            { s with trace := s.trace ++ [Event.RLock, Event.RUnlock] }) :=
  ListAddons_shared s (by rw [h]; rfl)

theorem DeployAddon_atRest (I : AddonInterface A W) (fuel : Nat) (s : Sys A W) (h : AtRest s)
    (addon : A) :
    DeployAddon I fuel s addon =
      match s.c.addons.lookup (I.Name addon) with
      | some _ =>
        some (some ⟨"addon component " ++ I.Name addon ++ " is already loaded into cluster "
          ++ s.c.name⟩, { s with trace := s.trace ++ [Event.Lock, Event.Unlock] })
      | none =>
        (I.Deploy addon).run I (nestedDeploy I fuel)
          { c := { s.c with addons := s.c.addons.insert (I.Name addon) addon }
            world := s.world
            trace := s.trace ++ [Event.Lock, Event.Unlock,
              Event.Deploy addon { s.c with addons := s.c.addons.insert (I.Name addon) addon }] }
    := by
  obtain ⟨⟨n, m, l⟩, w, t⟩ := s
  simp only [AtRest] at h
  subst h
  cases fuel with
  | zero =>
    simp only [DeployAddon, Sys.Lock, RWMutex.Lock, RWMutex.unlocked, nestedDeploy]
    cases hl : m.lookup (I.Name addon) with
    | none => simp [hl, Sys.Unlock, RWMutex.Unlock]
    | some a => simp [hl, Sys.Unlock, RWMutex.Unlock, Cluster.Name]
  | succ k =>
    simp only [DeployAddon, Sys.Lock, RWMutex.Lock, RWMutex.unlocked, nestedDeploy]
    cases hl : m.lookup (I.Name addon) with
    | none => simp [hl, Sys.Unlock, RWMutex.Unlock]
    | some a => simp [hl, Sys.Unlock, RWMutex.Unlock, Cluster.Name]

theorem DeleteAddon_atRest (I : AddonInterface A W) (s : Sys A W) (h : AtRest s) (addon : A) :
    DeleteAddon I s addon =
      match s.c.addons.lookup (I.Name addon) with
      | none => some (none, { s with trace := s.trace ++ [Event.Lock, Event.Unlock] })
      | some _ =>
        match (I.Delete addon s.c.held s.world).2 with
        | some err =>
          some (some err,
            { c := s.c
              world := (I.Delete addon s.c.held s.world).1
              trace := s.trace ++ [Event.Lock,
                Event.Delete addon s.c.held, Event.Unlock] })
        | none =>
          some (none,
            { c := { s.c with addons := s.c.addons.erase (I.Name addon) }
              world := (I.Delete addon s.c.held s.world).1
              trace := s.trace ++ [Event.Lock,
                Event.Delete addon s.c.held, Event.Unlock] }) := by
  obtain ⟨⟨n, m, l⟩, w, t⟩ := s
  simp only [AtRest] at h
  subst h
  simp only [DeleteAddon, Sys.Lock, RWMutex.Lock, RWMutex.unlocked, Cluster.held]
  cases hl : m.lookup (I.Name addon) with
  | none => simp [hl, Sys.Unlock, RWMutex.Unlock]
  | some a =>
    simp only [hl, if_true, and_self]
    cases hr : (I.Delete addon { name := n, addons := m, l := ⟨true, 0⟩ } w).2 with
    | none => simp [hl, hr, Sys.Unlock, RWMutex.Unlock]
    | some err => simp [hl, hr, Sys.Unlock, RWMutex.Unlock]

theorem TrimPrefix_v_append (s : String) : TrimPrefix ("v" ++ s) "v" = s := by
  have hd : ("v" ++ s).data = 'v' :: s.data := by
    rw [String.data_append]; rfl
  have hv : ("v" : String).data = ['v'] := rfl
  simp [TrimPrefix, HasPrefix, hd, hv]

theorem TrimPrefix_v_of_not_prefixed (t : String) (h : ∀ s, t ≠ "v" ++ s) :
    TrimPrefix t "v" = t := by
  have hv : ("v" : String).data = ['v'] := rfl
  unfold TrimPrefix HasPrefix
  split
  · rename_i hp
    exfalso
    rw [hv] at hp
    obtain ⟨l⟩ := t
    cases l with
    | nil => simp at hp
    | cons c l =>
      simp at hp
      subst hp
      exact h ⟨l⟩ (by apply String.ext; rw [String.data_append]; rfl)
  · rfl

theorem Callback.run_preserves (I : AddonInterface A W)
    (deploy : Sys A W → A → Option (Option GoError × Sys A W)) (P : Sys A W → Prop)
    (hworld : ∀ s w, P s → P { s with world := w })
    (hget : ∀ s n r s', P s → GetAddon s n = some (r, s') → P s')
    (hlist : ∀ s r s', P s → ListAddons s = some (r, s') → P s')
    (hdeploy : ∀ s a r s', P s → deploy s a = some (r, s') → P s')
    (hdelete : ∀ s a r s', P s → DeleteAddon I s a = some (r, s') → P s')
    (hcleanup : ∀ s r s', P s → Cleanup s = some (r, s') → P s')
    (p : Callback A W) :
    ∀ s r s', P s → p.run I deploy s = some (r, s') → P s' := by
  induction p with
  | ret r0 =>
    intro s r s' hs h
    simp only [Callback.run, Option.some.injEq, Prod.mk.injEq] at h
    obtain ⟨_, rfl⟩ := h
    exact hs
  | getWorld k ih =>
    intro s r s' hs h
    exact ih _ s r s' hs h
  | setWorld w k ih =>
    intro s r s' hs h
    exact ih _ r s' (hworld s w hs) h
  | name k ih =>
    intro s r s' hs h
    exact ih _ s r s' hs h
  | getAddon n k ih =>
    intro s r s' hs h
    simp only [Callback.run] at h
    cases hg : GetAddon s n with
    | none => simp [hg] at h
    | some x =>
      obtain ⟨r1, s1⟩ := x
      simp only [hg] at h
      exact ih _ s1 r s' (hget s n r1 s1 hs hg) h
  | listAddons k ih =>
    intro s r s' hs h
    simp only [Callback.run] at h
    cases hg : ListAddons s with
    | none => simp [hg] at h
    | some x =>
      obtain ⟨r1, s1⟩ := x
      simp only [hg] at h
      exact ih _ s1 r s' (hlist s r1 s1 hs hg) h
  | deployAddon a k ih =>
    intro s r s' hs h
    simp only [Callback.run] at h
    cases hg : deploy s a with
    | none => simp [hg] at h
    | some x =>
      obtain ⟨r1, s1⟩ := x
      simp only [hg] at h
      exact ih _ s1 r s' (hdeploy s a r1 s1 hs hg) h
  | deleteAddon a k ih =>
    intro s r s' hs h
    simp only [Callback.run] at h
    cases hg : DeleteAddon I s a with
    | none => simp [hg] at h
    | some x =>
      obtain ⟨r1, s1⟩ := x
      simp only [hg] at h
      exact ih _ s1 r s' (hdelete s a r1 s1 hs hg) h
  | cleanup k ih =>
    intro s r s' hs h
    simp only [Callback.run] at h
    cases hg : Cleanup s with
    | none => simp [hg] at h
    | some x =>
      obtain ⟨r1, s1⟩ := x
      simp only [hg] at h
      exact ih _ s1 r s' (hcleanup s r1 s1 hs hg) h

theorem Stable.getAddon {I : AddonInterface A W} {P : Sys A W → Prop} (hP : Stable I P)
    (s : Sys A W) (n : AddonName) (r : Option A × Option GoError) (s' : Sys A W) (hs : P s)
    (h : GetAddon s n = some (r, s')) : P s' := by
  rw [GetAddon_atRest s (hP.atRest s hs) n] at h
  simp only [Option.some.injEq, Prod.mk.injEq] at h
  obtain ⟨_, rfl⟩ := h
  exact hP.trace s _ hs

theorem Stable.listAddons {I : AddonInterface A W} {P : Sys A W → Prop} (hP : Stable I P)
    (s : Sys A W) (r : List A) (s' : Sys A W) (hs : P s)
    (h : ListAddons s = some (r, s')) : P s' := by
  rw [ListAddons_atRest s (hP.atRest s hs)] at h
  simp only [Option.some.injEq, Prod.mk.injEq] at h
  obtain ⟨_, rfl⟩ := h
  exact hP.trace s _ hs

theorem Stable.cleanup {I : AddonInterface A W} {P : Sys A W → Prop} (hP : Stable I P)
    (s : Sys A W) (r : Option GoError) (s' : Sys A W) (hs : P s)
    (h : Cleanup s = some (r, s')) : P s' := by
  rw [Cleanup_atRest s (hP.atRest s hs)] at h
  simp only [Option.some.injEq, Prod.mk.injEq] at h
  obtain ⟨_, rfl⟩ := h
  exact hP.trace s _ hs

theorem Stable.deleteAddon {I : AddonInterface A W} {P : Sys A W → Prop} (hP : Stable I P)
    (s : Sys A W) (addon : A) (r : Option GoError) (s' : Sys A W) (hs : P s)
    (h : DeleteAddon I s addon = some (r, s')) : P s' := by
  rw [DeleteAddon_atRest I s (hP.atRest s hs) addon] at h
  cases hl : s.c.addons.lookup (I.Name addon) with
  | none =>
    simp only [hl, Option.some.injEq, Prod.mk.injEq] at h
    obtain ⟨_, rfl⟩ := h
    exact hP.trace s _ hs
  | some a =>
    simp only [hl] at h
    cases hr : (I.Delete addon s.c.held s.world).2 with
    | none =>
      simp only [hr, Option.some.injEq, Prod.mk.injEq] at h
      obtain ⟨_, rfl⟩ := h
      exact hP.trace _ _ (hP.world _ _ (hP.erase s (I.Name addon) hs))
    | some err =>
      simp only [hr, Option.some.injEq, Prod.mk.injEq] at h
      obtain ⟨_, rfl⟩ := h
      have hw := hP.world s (I.Delete addon s.c.held s.world).1 hs
      exact hP.trace _ _ hw

theorem Stable.deployAddon {I : AddonInterface A W} {P : Sys A W → Prop} (hP : Stable I P)
    (fuel : Nat) :
    ∀ (s : Sys A W) (addon : A) (r : Option GoError) (s' : Sys A W), P s →
      DeployAddon I fuel s addon = some (r, s') → P s' := by
  induction fuel with
  | zero =>
    intro s addon r s' hs h
    rw [DeployAddon_atRest I 0 s (hP.atRest s hs) addon] at h
    cases hl : s.c.addons.lookup (I.Name addon) with
    | some a =>
      simp only [hl, Option.some.injEq, Prod.mk.injEq] at h
      obtain ⟨_, rfl⟩ := h
      exact hP.trace s _ hs
    | none =>
      simp only [hl] at h
      refine Callback.run_preserves I (nestedDeploy I 0) P hP.world hP.getAddon hP.listAddons
        ?_ hP.deleteAddon hP.cleanup (I.Deploy addon) _ r s' ?_ h
      · intro s1 a r1 s1' _ hn
        simp [nestedDeploy] at hn
      · exact hP.trace _ _ (hP.insert s addon hs)
  | succ k ih =>
    intro s addon r s' hs h
    rw [DeployAddon_atRest I (k + 1) s (hP.atRest s hs) addon] at h
    cases hl : s.c.addons.lookup (I.Name addon) with
    | some a =>
      simp only [hl, Option.some.injEq, Prod.mk.injEq] at h
      obtain ⟨_, rfl⟩ := h
      exact hP.trace s _ hs
    | none =>
      simp only [hl] at h
      refine Callback.run_preserves I (nestedDeploy I (k + 1)) P hP.world hP.getAddon
        hP.listAddons ?_ hP.deleteAddon hP.cleanup (I.Deploy addon) _ r s' ?_ h
      · intro s1 a r1 s1' hs1 hn
        exact ih s1 a r1 s1' hs1 hn
      · exact hP.trace _ _ (hP.insert s addon hs)

theorem Stable.nested {I : AddonInterface A W} {P : Sys A W → Prop} (hP : Stable I P)
    (fuel : Nat) (s : Sys A W) (addon : A) (r : Option GoError) (s' : Sys A W) (hs : P s)
    (h : nestedDeploy I fuel s addon = some (r, s')) : P s' := by
  cases fuel with
  | zero => simp [nestedDeploy] at h
  | succ k => exact hP.deployAddon k s addon r s' hs h

theorem Stable.run {I : AddonInterface A W} {P : Sys A W → Prop} (hP : Stable I P)
    (fuel : Nat) (p : Callback A W) (s : Sys A W) (r : Option GoError) (s' : Sys A W)
    (hs : P s) (h : p.run I (nestedDeploy I fuel) s = some (r, s')) : P s' :=
  Callback.run_preserves I (nestedDeploy I fuel) P hP.world hP.getAddon hP.listAddons
    (hP.nested fuel) hP.deleteAddon hP.cleanup p s r s' hs h

theorem Stable_atRest (I : AddonInterface A W) : Stable I (fun s : Sys A W => AtRest s) where
  atRest := fun _ h => h
  world := fun _ _ h => h
  trace := fun _ _ h => h
  insert := fun _ _ h => h
  erase := fun _ _ h => h

theorem KeyedByName_insert (I : AddonInterface A W) (m : AList (fun _ : AddonName => A))
    (addon : A) (hm : ∀ k a, m.lookup k = some a → I.Name a = k) :
    ∀ k a, (m.insert (I.Name addon) addon).lookup k = some a → I.Name a = k := by
  intro k a hk
  by_cases hkn : k = I.Name addon
  · subst hkn
    rw [AList.lookup_insert] at hk
    cases hk
    rfl
  · rw [AList.lookup_insert_ne hkn] at hk
    exact hm k a hk

theorem KeyedByName_erase (I : AddonInterface A W) (m : AList (fun _ : AddonName => A))
    (n : AddonName) (hm : ∀ k a, m.lookup k = some a → I.Name a = k) :
    ∀ k a, (m.erase n).lookup k = some a → I.Name a = k := by
  intro k a hk
  by_cases hkn : k = n
  · subst hkn
    rw [AList.lookup_erase] at hk
    cases hk
  · rw [AList.lookup_erase_ne hkn] at hk
    exact hm k a hk

theorem DeployKeepsMap_plain (fuel : Nat) (a : StubAddon) (h : a.script = StubScript.plain) :
    DeployKeepsMap stubInterface fuel a := by
  intro s _
  obtain ⟨n, dr, de, sc⟩ := a
  simp only at h
  subst h
  exact ⟨_, _, rfl, rfl⟩

/-- C1 as stated fails for addons whose deploy callback uses the handle it is given: after
`bundle`, whose callback deploys `metallb`, is deployed twice to a fresh handle, two addons are
registered; and the second deploy of `oneshot`, whose callback deletes it again, returns no
error. -/
theorem deploy_twice_counterexample :
    AtRest fresh ∧ fresh.c.addons = ∅ ∧
    (∃ r1 s1 r2 s2 l s3,
      DeployAddon stubInterface 1 fresh bundle = some (r1, s1) ∧
      DeployAddon stubInterface 1 s1 bundle = some (r2, s2) ∧
      ListAddons s2 = some (l, s3) ∧ l.length = 2) ∧
    (∃ r1 s1 s2,
      DeployAddon stubInterface 0 fresh oneshot = some (r1, s1) ∧
      DeployAddon stubInterface 0 s1 oneshot = some (none, s2)) :=
  ⟨rfl, rfl, ⟨_, _, _, _, _, _, rfl, rfl, rfl, rfl⟩, ⟨_, _, _, rfl, rfl⟩⟩

/-- C1 (amended): from a handle at rest with no addons, for every addon whose deploy callback
returns and leaves the addon map as it found it, deploying the addon twice in a row returns
an error on the second call, and afterwards exactly one addon is registered: `ListAddons`
returns the one-element list holding it, and it is stored under its name. -/
theorem deploy_twice_second_fails (I : AddonInterface A W) (fuel : Nat) (s : Sys A W)
    (hrest : AtRest s) (hempty : s.c.addons = ∅) (addon : A)
    (hcb : DeployKeepsMap I fuel addon) :
    ∃ r1 s1 err s2 l s3,
      DeployAddon I fuel s addon = some (r1, s1) ∧
      DeployAddon I fuel s1 addon = some (some err, s2) ∧
      ListAddons s2 = some (l, s3) ∧ l.length = 1 ∧ l = [addon] ∧
      s2.c.addons.keys = [I.Name addon] ∧
      s2.c.addons.lookup (I.Name addon) = some addon := by
  obtain ⟨⟨n, m, lk⟩, w, t⟩ := s
  simp only at hempty
  subst hempty
  have h1 := DeployAddon_atRest I fuel ⟨⟨n, ∅, lk⟩, w, t⟩ hrest addon
  simp only [AList.lookup_empty] at h1
  obtain ⟨r1, s1, hrun, hmap⟩ := hcb
    ⟨⟨n, AList.insert (I.Name addon) addon ∅, lk⟩, w,
      t ++ [Event.Lock, Event.Unlock,
        Event.Deploy addon ⟨n, AList.insert (I.Name addon) addon ∅, lk⟩]⟩ hrest
  have hrest1 : AtRest s1 :=
    (fun hs => (Stable_atRest I).run fuel _ _ _ _ hs hrun) hrest
  rw [hrun] at h1
  simp only at hmap
  have hl : s1.c.addons.lookup (I.Name addon) = some addon := by
    rw [hmap]; exact AList.lookup_insert _
  have h2 := DeployAddon_atRest I fuel s1 hrest1 addon
  simp only [hl] at h2
  have h3 := ListAddons_atRest
    ({ s1 with trace := s1.trace ++ [Event.Lock, Event.Unlock] } : Sys A W) hrest1
  simp only [hmap] at h3
  exact ⟨_, _, _, _, _, _, h1, h2, h3, by simp [AList.insert_empty],
    by simp [AList.insert_empty], by simp [hmap, AList.insert_empty], hl⟩

/-- C1 (amended) at the stub addon `kong` on a fresh handle: the second deploy returns the
duplicate error and `kong` alone is listed. -/
theorem deploy_twice_second_fails_witness :
    AtRest fresh ∧ fresh.c.addons = ∅ ∧ DeployKeepsMap stubInterface 0 kong ∧
    ∃ r1 s1 err s2 l s3,
      DeployAddon stubInterface 0 fresh kong = some (r1, s1) ∧
      DeployAddon stubInterface 0 s1 kong = some (some err, s2) ∧
      ListAddons s2 = some (l, s3) ∧ l.length = 1 ∧ l = [kong] ∧
      s2.c.addons.keys = [stubInterface.Name kong] ∧
      s2.c.addons.lookup (stubInterface.Name kong) = some kong :=
  ⟨rfl, rfl, DeployKeepsMap_plain 0 kong rfl,
    deploy_twice_second_fails stubInterface 0 fresh rfl rfl kong
      (DeployKeepsMap_plain 0 kong rfl)⟩

/-- C2: deploying an addon whose name is already a key of the map returns the error
`addon component <n> is already loaded into cluster <cluster name>`, invokes no callback
(the trace gains only the lock and unlock, the world is untouched) and leaves the handle,
hence the addon map and the addon stored under the name, unchanged. -/
theorem deploy_duplicate_rejected (I : AddonInterface A W) (fuel : Nat) (s : Sys A W)
    (hrest : AtRest s) (addon stored : A) (hreg : s.c.addons.lookup (I.Name addon) = some stored) :
    ∃ s',
      DeployAddon I fuel s addon =
        some (some ⟨"addon component " ++ I.Name addon ++ " is already loaded into cluster "
          ++ s.c.Name⟩, s') ∧
      s'.c = s.c ∧ s'.world = s.world ∧ s'.trace = s.trace ++ [Event.Lock, Event.Unlock] ∧
      s'.c.addons.lookup (I.Name addon) = some stored := by
  have h := DeployAddon_atRest I fuel s hrest addon
  simp only [hreg] at h
  exact ⟨_, h, rfl, rfl, rfl, hreg⟩

/-- C2 at a handle holding `kong`, deploying another addon of that name. -/
theorem deploy_duplicate_rejected_witness :
    AtRest withKong ∧
    withKong.c.addons.lookup (stubInterface.Name { kong with deployResult := some ⟨"boom"⟩ })
      = some kong ∧
    ∃ s',
      DeployAddon stubInterface 0 withKong { kong with deployResult := some ⟨"boom"⟩ } =
        some (some ⟨"addon component " ++
          stubInterface.Name { kong with deployResult := some ⟨"boom"⟩ } ++
          " is already loaded into cluster " ++ withKong.c.Name⟩, s') ∧
      s'.c = withKong.c ∧ s'.world = withKong.world ∧
      s'.trace = withKong.trace ++ [Event.Lock, Event.Unlock] ∧
      s'.c.addons.lookup (stubInterface.Name { kong with deployResult := some ⟨"boom"⟩ })
        = some kong :=
  ⟨rfl, rfl, deploy_duplicate_rejected stubInterface 0 withKong rfl _ kong rfl⟩

/-- C3: deleting an addon whose name is not a key of the map returns `nil`, invokes no callback
(the trace gains only the lock and unlock, the world is untouched) and leaves the handle,
hence the addon map, unchanged. -/
theorem delete_unregistered_noop (I : AddonInterface A W) (s : Sys A W) (hrest : AtRest s)
    (addon : A) (hnew : s.c.addons.lookup (I.Name addon) = none) :
    ∃ s',
      DeleteAddon I s addon = some (none, s') ∧
      s'.c = s.c ∧ s'.c.addons = s.c.addons ∧ s'.world = s.world ∧
      s'.trace = s.trace ++ [Event.Lock, Event.Unlock] := by
  have h := DeleteAddon_atRest I s hrest addon
  simp only [hnew] at h
  exact ⟨_, h, rfl, rfl, rfl, rfl⟩

/-- C3 at a handle holding `kong`, deleting `metallb`. -/
theorem delete_unregistered_noop_witness :
    AtRest withKong ∧ withKong.c.addons.lookup (stubInterface.Name metallb) = none ∧
    ∃ s',
      DeleteAddon stubInterface withKong metallb = some (none, s') ∧
      s'.c = withKong.c ∧ s'.c.addons = withKong.c.addons ∧ s'.world = withKong.world ∧
      s'.trace = withKong.trace ++ [Event.Lock, Event.Unlock] :=
  ⟨rfl, rfl, delete_unregistered_noop stubInterface withKong rfl metallb rfl⟩

/-- C4 as stated fails: `kong`, whose delete callback returns an error, is still listed after
it was deployed to a fresh handle and then deleted; and after `bundle`, whose deploy callback
deploys `metallb`, was deployed and deleted without error, `metallb` is listed. -/
theorem deploy_delete_list_counterexample :
    AtRest fresh ∧ fresh.c.addons = ∅ ∧
    (∃ r1 s1 r2 s2 l s3,
      DeployAddon stubInterface 0 fresh kong = some (r1, s1) ∧
      DeleteAddon stubInterface s1 kong = some (r2, s2) ∧
      r2 = some ⟨"delete failed"⟩ ∧
      ListAddons s2 = some (l, s3) ∧ l = [kong] ∧ l ≠ []) ∧
    (∃ r1 s1 s2 l s3,
      DeployAddon stubInterface 1 fresh bundle = some (r1, s1) ∧
      DeleteAddon stubInterface s1 bundle = some (none, s2) ∧
      ListAddons s2 = some (l, s3) ∧ l = [metallb] ∧ l ≠ []) :=
  ⟨rfl, rfl, ⟨_, _, _, _, [kong], _, rfl, rfl, rfl, rfl, rfl, List.cons_ne_nil _ _⟩,
    ⟨_, _, _, [metallb], _, rfl, rfl, rfl, rfl, List.cons_ne_nil _ _⟩⟩

/-- C4 (amended): from a handle at rest with no addons, for every addon whose deploy callback
returns and leaves the addon map as it found it and whose delete callback returns no error,
`DeployAddon` of the addon returns, the following `DeleteAddon` of the same addon returns
`nil`, and `ListAddons` then returns the empty list. -/
theorem deploy_delete_list_empty (I : AddonInterface A W) (fuel : Nat) (s : Sys A W)
    (hrest : AtRest s) (hempty : s.c.addons = ∅) (addon : A)
    (hcb : DeployKeepsMap I fuel addon) (hdel : ∀ c w, (I.Delete addon c w).2 = none) :
    ∃ r1 s1 s2 s3,
      DeployAddon I fuel s addon = some (r1, s1) ∧
      DeleteAddon I s1 addon = some (none, s2) ∧
      ListAddons s2 = some ([], s3) := by
  obtain ⟨⟨n, m, lk⟩, w, t⟩ := s
  simp only at hempty
  subst hempty
  have h1 := DeployAddon_atRest I fuel ⟨⟨n, ∅, lk⟩, w, t⟩ hrest addon
  simp only [AList.lookup_empty] at h1
  obtain ⟨r1, s1, hrun, hmap⟩ := hcb
    ⟨⟨n, AList.insert (I.Name addon) addon ∅, lk⟩, w,
      t ++ [Event.Lock, Event.Unlock,
        Event.Deploy addon ⟨n, AList.insert (I.Name addon) addon ∅, lk⟩]⟩ hrest
  have hrest1 : AtRest s1 :=
    (fun hs => (Stable_atRest I).run fuel _ _ _ _ hs hrun) hrest
  rw [hrun] at h1
  simp only at hmap
  have hl : s1.c.addons.lookup (I.Name addon) = some addon := by
    rw [hmap]; exact AList.lookup_insert _
  have h2 := DeleteAddon_atRest I s1 hrest1 addon
  simp only [hl, hdel] at h2
  have he : (AList.erase (I.Name addon) s1.c.addons).entries = [] := by
    have hk : (AList.erase (I.Name addon) s1.c.addons).keys = [] := by
      rw [hmap]
      simp [AList.keys_erase, AList.keys_insert]
    simpa [AList.keys, List.keys] using hk
  have h3 := ListAddons_atRest
    ({ c := { s1.c with addons := s1.c.addons.erase (I.Name addon) }
       world := (I.Delete addon s1.c.held s1.world).1
       trace := s1.trace ++ [Event.Lock, Event.Delete addon s1.c.held, Event.Unlock] } :
      Sys A W) hrest1
  simp only [he, List.map_nil] at h3
  exact ⟨_, _, _, _, h1, h2, h3⟩

/-- C4 (amended) at the stub addon `metallb`, whose callbacks succeed and leave the handle
alone: `DeleteAddon` returns `nil` and nothing is listed. -/
theorem deploy_delete_list_empty_witness :
    AtRest fresh ∧ fresh.c.addons = ∅ ∧ DeployKeepsMap stubInterface 0 metallb ∧
    (∀ c w, (stubInterface.Delete metallb c w).2 = none) ∧
    ∃ r1 s1 s2 s3,
      DeployAddon stubInterface 0 fresh metallb = some (r1, s1) ∧
      DeleteAddon stubInterface s1 metallb = some (none, s2) ∧
      ListAddons s2 = some ([], s3) :=
  ⟨rfl, rfl, DeployKeepsMap_plain 0 metallb rfl, fun _ _ => rfl,
    deploy_delete_list_empty stubInterface 0 fresh rfl rfl metallb
      (DeployKeepsMap_plain 0 metallb rfl) (fun _ _ => rfl)⟩

/-- C5: on a handle at rest `GetAddon n` returns; when `n` is not a key of the map it returns
no addon and the error `addon <n> not found`; when an addon is stored under `n` it returns that
addon and no error; hence it returns an error only when `n` is not registered. -/
theorem get_unregistered_not_found (s : Sys A W) (hrest : AtRest s) (n : AddonName) :
    (s.c.addons.lookup n = none →
      ∃ s', GetAddon s n = some ((none, some ⟨"addon " ++ n ++ " not found"⟩), s')) ∧
    (∀ a, s.c.addons.lookup n = some a → ∃ s', GetAddon s n = some ((some a, none), s')) ∧
    (∀ r err s', GetAddon s n = some ((r, some err), s') → s.c.addons.lookup n = none) := by
  have h := GetAddon_atRest s hrest n
  refine ⟨fun hn => ?_, fun a ha => ?_, fun r err s' hg => ?_⟩
  · simp only [hn] at h
    exact ⟨_, h⟩
  · simp only [ha] at h
    exact ⟨_, h⟩
  · cases hl : s.c.addons.lookup n with
    | none => rfl
    | some a =>
      simp only [hl] at h
      rw [h] at hg
      simp at hg

/-- C5 at a handle holding `kong`, asked for `metallb` and for `kong`. -/
theorem get_unregistered_not_found_witness :
    AtRest withKong ∧
    (∃ s', GetAddon withKong "metallb" =
      some ((none, some ⟨"addon metallb not found"⟩), s')) ∧
    (∃ s', GetAddon withKong "kong" = some ((some kong, none), s')) :=
  ⟨rfl, (get_unregistered_not_found withKong rfl "metallb").1 rfl,
    (get_unregistered_not_found withKong rfl "kong").2.1 kong rfl⟩

/-- C6: on a handle at rest where an addon is stored under the name of `addon`, `DeleteAddon`
invokes the delete callback of `addon` with the lock held.  If the callback returns an error,
`DeleteAddon` returns that error, the handle and its addon map are unchanged and `GetAddon`
of the name still returns the stored addon.  If the callback returns `nil`, `DeleteAddon`
returns `nil` and the entry for the name is gone. -/
theorem delete_callback_error_keeps_entry (I : AddonInterface A W) (s : Sys A W)
    (hrest : AtRest s) (addon stored : A)
    (hreg : s.c.addons.lookup (I.Name addon) = some stored) :
    (∀ err, (I.Delete addon s.c.held s.world).2 = some err →
      ∃ s', DeleteAddon I s addon = some (some err, s') ∧
        s'.c = s.c ∧ s'.c.addons = s.c.addons ∧
        s'.trace = s.trace ++ [Event.Lock, Event.Delete addon s.c.held, Event.Unlock] ∧
        ∃ s'', GetAddon s' (I.Name addon) = some ((some stored, none), s'')) ∧
    ((I.Delete addon s.c.held s.world).2 = none →
      ∃ s', DeleteAddon I s addon = some (none, s') ∧
        s'.c.addons = s.c.addons.erase (I.Name addon) ∧
        s'.c.addons.lookup (I.Name addon) = none ∧
        s'.trace = s.trace ++ [Event.Lock, Event.Delete addon s.c.held, Event.Unlock]) := by
  have h := DeleteAddon_atRest I s hrest addon
  simp only [hreg] at h
  constructor
  · intro err herr
    simp only [herr] at h
    refine ⟨_, h, rfl, rfl, rfl, ?_⟩
    have hg := GetAddon_atRest
      ({ c := s.c, world := (I.Delete addon s.c.held s.world).1,
         trace := s.trace ++ [Event.Lock, Event.Delete addon s.c.held, Event.Unlock] } :
        Sys A W) hrest (I.Name addon)
    simp only [hreg] at hg
    exact ⟨_, hg⟩
  · intro hok
    simp only [hok] at h
    exact ⟨_, h, rfl, AList.lookup_erase _ _, rfl⟩

/-- C6 at a handle holding `kong`: deleting `kong` (callback fails) keeps the entry, deleting
an addon of the same name whose callback succeeds removes it. -/
theorem delete_callback_error_keeps_entry_witness :
    AtRest withKong ∧ withKong.c.addons.lookup (stubInterface.Name kong) = some kong ∧
    (∃ s', DeleteAddon stubInterface withKong kong = some (some ⟨"delete failed"⟩, s') ∧
        s'.c = withKong.c ∧ s'.c.addons = withKong.c.addons ∧
        s'.trace = withKong.trace ++
          [Event.Lock, Event.Delete kong withKong.c.held, Event.Unlock] ∧
        ∃ s'', GetAddon s' (stubInterface.Name kong) = some ((some kong, none), s'')) ∧
    (∃ s', DeleteAddon stubInterface withKong { kong with deleteResult := none }
        = some (none, s') ∧
        s'.c.addons = withKong.c.addons.erase "kong" ∧
        s'.c.addons.lookup "kong" = none ∧
        s'.trace = withKong.trace ++
          [Event.Lock, Event.Delete { kong with deleteResult := none } withKong.c.held,
            Event.Unlock]) :=
  ⟨rfl, rfl,
    (delete_callback_error_keeps_entry stubInterface withKong rfl kong kong rfl).1 _ rfl,
    (delete_callback_error_keeps_entry stubInterface withKong rfl
      { kong with deleteResult := none } kong rfl).2 rfl⟩

/-- C7: `Version` parses the server's version string with one leading `v` removed: for a
string `"v" ++ s` it returns exactly what parsing `s` returns, a string that does not start
with `v` is parsed as it is, an error of the server query is returned, and so is an error of
the parse.  With a parser that reads `1.28.0` as version 1.28.0, the server string `v1.28.0`
yields version 1.28.0. -/
theorem version_strips_leading_v {V : Type} (parse : String → Except GoError V) :
    (∀ s, Version parse (Except.ok ("v" ++ s)) = parse s) ∧
    (∀ t, (∀ s, t ≠ "v" ++ s) → Version parse (Except.ok t) = parse t) ∧
    (∀ err, Version parse (Except.error err) = Except.error err) ∧
    (∀ s err, parse s = Except.error err →
      Version parse (Except.ok ("v" ++ s)) = Except.error err) ∧
    (∀ t err, (∀ s, t ≠ "v" ++ s) → parse t = Except.error err →
      Version parse (Except.ok t) = Except.error err) ∧
    (∀ v, parse "1.28.0" = Except.ok v →
      Version parse (Except.ok "v1.28.0") = Except.ok v) := by
  refine ⟨fun s => ?_, fun t ht => ?_, fun err => rfl, fun s err hp => ?_,
    fun t err ht hp => ?_, fun v hv => ?_⟩
  · simp only [Version, TrimPrefix_v_append]
  · simp only [Version, TrimPrefix_v_of_not_prefixed t ht]
  · simp only [Version, TrimPrefix_v_append, hp]
  · simp only [Version, TrimPrefix_v_of_not_prefixed t ht, hp]
  · have h : ("v1.28.0" : String) = "v" ++ "1.28.0" := by decide
    rw [h]
    simp only [Version, TrimPrefix_v_append, hv]

/-- C7 with the stand-in parser: `v1.28.0` yields 1.28.0, `1.28.0` is parsed as it is, and a
string the parser rejects yields the parser's error. -/
theorem version_strips_leading_v_witness :
    Version parseOnly1280 (Except.ok "v1.28.0")
      = Except.ok { major := 1, minor := 28, patch := 0 } ∧
    Version parseOnly1280 (Except.ok "1.28.0")
      = Except.ok { major := 1, minor := 28, patch := 0 } ∧
    Version parseOnly1280 (Except.ok ("v" ++ "vv"))
      = Except.error ⟨"Invalid semantic version"⟩ :=
  ⟨(version_strips_leading_v parseOnly1280).2.2.2.2.2 _ rfl,
    ((version_strips_leading_v parseOnly1280).2.1 "1.28.0" (by
      intro s h
      have := congrArg (fun x => x.data.head?) h
      simp [String.data_append] at this)).trans rfl,
    (version_strips_leading_v parseOnly1280).2.2.2.1 "vv" _ rfl⟩

theorem Stable_keyed (I : AddonInterface A W) :
    Stable I (fun s : Sys A W => AtRest s ∧ KeyedByName I s) where
  atRest := fun _ h => h.1
  world := fun _ _ h => h
  trace := fun _ _ h => h
  insert := fun s addon h => ⟨h.1, KeyedByName_insert I s.c.addons addon h.2⟩
  erase := fun s n h => ⟨h.1, KeyedByName_erase I s.c.addons n h.2⟩

theorem Reachable_atRest_keyed (I : AddonInterface A W) (s : Sys A W) (h : Reachable I s) :
    AtRest s ∧ KeyedByName I s := by
  induction h with
  | new w =>
    refine ⟨rfl, ?_⟩
    intro k a hk
    simp [New] at hk
  | deploy fuel addon _ hstep ih => exact (Stable_keyed I).deployAddon fuel _ addon _ _ ih hstep
  | delete addon _ hstep ih => exact (Stable_keyed I).deleteAddon _ addon _ _ ih hstep
  | get name _ hstep ih => exact (Stable_keyed I).getAddon _ name _ _ ih hstep
  | list _ hstep ih => exact (Stable_keyed I).listAddons _ _ _ ih hstep
  | cleanup _ hstep ih => exact (Stable_keyed I).cleanup _ _ _ ih hstep
  | env w _ ih => exact ih

/-- C8: in every state reachable from a freshly constructed handle by `DeployAddon`,
`DeleteAddon`, `GetAddon`, `ListAddons` and `Cleanup` calls, the handle is at rest, every addon
in the map is stored under its own name, and `ListAddons` returns a list in which no two
addons have the same name and each addon is the one `GetAddon` returns for its name. -/
theorem one_addon_per_name (I : AddonInterface A W) (s : Sys A W) (h : Reachable I s) :
    AtRest s ∧ KeyedByName I s ∧
    ∃ l s', ListAddons s = some (l, s') ∧ (l.map I.Name).Nodup ∧
      ∀ a ∈ l, ∃ s'', GetAddon s (I.Name a) = some ((some a, none), s'') := by
  obtain ⟨hrest, hkey⟩ := Reachable_atRest_keyed I s h
  have hent : ∀ e ∈ s.c.addons.entries,
      s.c.addons.lookup e.1 = some e.2 ∧ I.Name e.2 = e.1 := by
    intro e he
    have hl : s.c.addons.lookup e.1 = some e.2 := by
      have := (AList.mem_lookup_iff (a := e.1) (b := e.2) (s := s.c.addons)).2 he
      exact this
    exact ⟨hl, hkey _ _ hl⟩
  refine ⟨hrest, hkey, _, _, ListAddons_atRest s hrest, ?_, ?_⟩
  · have hk : (s.c.addons.entries.map (fun e => e.2)).map I.Name = s.c.addons.keys := by
      rw [List.map_map]
      simp only [AList.keys, List.keys]
      apply List.map_congr_left
      intro e he
      exact (hent e he).2
    rw [hk]
    exact s.c.addons.keys_nodup
  · intro a ha
    obtain ⟨e, he, rfl⟩ := List.mem_map.1 ha
    have hg := GetAddon_atRest s hrest (I.Name e.2)
    rw [(hent e he).2, (hent e he).1] at hg
    rw [(hent e he).2]
    exact ⟨_, hg⟩

/-- C8 at the handle reached by deploying `bundle` to a fresh handle, whose deploy callback
deploys `metallb` in turn: two addons are registered. -/
theorem one_addon_per_name_witness :
    Reachable stubInterface withBundle ∧
    withBundle.c.addons.keys = ["metallb", "bundle"] ∧
    (AtRest withBundle ∧ KeyedByName stubInterface withBundle ∧
      ∃ l s', ListAddons withBundle = some (l, s') ∧ (l.map stubInterface.Name).Nodup ∧
        ∀ a ∈ l, ∃ s'',
          GetAddon withBundle (stubInterface.Name a) = some ((some a, none), s'')) :=
  ⟨Reachable.deploy 1 bundle (Reachable.new 0) rfl, rfl,
    one_addon_per_name stubInterface withBundle
      (Reachable.deploy 1 bundle (Reachable.new 0) rfl)⟩

/-- C9 as stated fails for a deploy callback that uses the handle it is given: `oneshot`,
whose callback calls `DeleteAddon` on itself, is not registered when `DeployAddon` returns
although its name was free and the call returned no error. -/
theorem deploy_registers_counterexample :
    AtRest fresh ∧ fresh.c.addons.lookup (stubInterface.Name oneshot) = none ∧
    ∃ s' t,
      DeployAddon stubInterface 0 fresh oneshot = some (none, s') ∧
      s'.c.addons.lookup (stubInterface.Name oneshot) = none ∧
      GetAddon s' (stubInterface.Name oneshot)
        = some ((none, some ⟨"addon oneshot not found"⟩), t) :=
  ⟨rfl, rfl, _, _, rfl, rfl, rfl⟩

/-- C9 (amended): on a handle at rest where the name of `addon` is not a key of the map,
`DeployAddon` stores the addon under its name, releases the lock and only then invokes the
deploy callback on the live handle: the state the callback starts in already holds the addon
(`GetAddon` of the name returns it) and its mutex is free.  `DeployAddon` returns exactly what
the callback returns and leaves the handle as the callback left it: nothing is rolled back.
So whenever the callback left the addon map as it found it, the addon is still registered
after `DeployAddon` returns, whether the callback returned `nil` or an error. -/
theorem deploy_registers_before_callback (I : AddonInterface A W) (fuel : Nat) (s : Sys A W)
    (hrest : AtRest s) (addon : A) (hnew : s.c.addons.lookup (I.Name addon) = none) :
    ∃ seen s0,
      seen = { s.c with addons := s.c.addons.insert (I.Name addon) addon } ∧
      s0 = { c := seen, world := s.world,
             trace := s.trace ++ [Event.Lock, Event.Unlock, Event.Deploy addon seen] } ∧
      seen.l = RWMutex.unlocked ∧
      seen.addons.lookup (I.Name addon) = some addon ∧
      (∃ t, GetAddon s0 (I.Name addon) = some ((some addon, none), t)) ∧
      DeployAddon I fuel s addon = (I.Deploy addon).run I (nestedDeploy I fuel) s0 ∧
      ∀ r s', (I.Deploy addon).run I (nestedDeploy I fuel) s0 = some (r, s') →
        s'.c.addons = s0.c.addons →
          DeployAddon I fuel s addon = some (r, s') ∧
          s'.c.addons.lookup (I.Name addon) = some addon ∧
          ∃ t, GetAddon s' (I.Name addon) = some ((some addon, none), t) := by
  have h := DeployAddon_atRest I fuel s hrest addon
  simp only [hnew] at h
  have hl : AList.lookup (I.Name addon) (s.c.addons.insert (I.Name addon) addon) = some addon :=
    AList.lookup_insert _
  refine ⟨_, _, rfl, rfl, hrest, hl, ?_, h, ?_⟩
  · have hg := GetAddon_atRest
      ({ c := { s.c with addons := s.c.addons.insert (I.Name addon) addon }, world := s.world,
         trace := s.trace ++ [Event.Lock, Event.Unlock, Event.Deploy addon
           { s.c with addons := s.c.addons.insert (I.Name addon) addon }] } : Sys A W)
      hrest (I.Name addon)
    simp only [hl] at hg
    exact ⟨_, hg⟩
  · intro r s' hrun hmap
    have hrest' : AtRest s' :=
      (fun hs => (Stable_atRest I).run fuel _ _ _ _ hs hrun) hrest
    have hl' : s'.c.addons.lookup (I.Name addon) = some addon := by
      rw [hmap]; exact hl
    have hg := GetAddon_atRest s' hrest' (I.Name addon)
    simp only [hl'] at hg
    exact ⟨h.trans hrun, hl', _, hg⟩

/-- C9 (amended) at the stub addon `flaky`, whose deploy callback returns an error, on a
handle holding `kong`: `DeployAddon` returns that error and `flaky` is registered. -/
theorem deploy_registers_before_callback_witness :
    AtRest withKong ∧ withKong.c.addons.lookup (stubInterface.Name flaky) = none ∧
    ∃ s' t,
      DeployAddon stubInterface 0 withKong flaky = some (some ⟨"deploy failed"⟩, s') ∧
      s'.c.addons.lookup (stubInterface.Name flaky) = some flaky ∧
      GetAddon s' (stubInterface.Name flaky) = some ((some flaky, none), t) := by
  obtain ⟨seen, s0, hseen, hs0, -, -, -, -, hkeep⟩ :=
    deploy_registers_before_callback stubInterface 0 withKong rfl flaky rfl
  subst hseen
  subst hs0
  obtain ⟨hd, hl, t, hg⟩ := hkeep (some ⟨"deploy failed"⟩) _ rfl rfl
  exact ⟨rfl, rfl, _, t, hd, hl, hg⟩

end KTF
